import Mathlib

/-!
Verification of the ZenTask task-manager core (src/App.tsx and src/types.ts).

Conventions of the shallow embedding:

* JS timestamps (`Date.now()`, `getTime()`) are integers: milliseconds since
  the Unix epoch, UTC.  ISO date strings stored in task fields are represented
  by the timestamp they denote (`new Date(s).getTime()`); serializing back via
  `toISOString()` is the identity on that timestamp, so string round-trips are
  dropped from the model.
* JS calendar-field operations (`setDate`, `setMonth`, `setFullYear`,
  `getDay`, ...) are modelled with the arithmetic the ECMAScript specification
  prescribes for them (DayFromYear, MakeDay, WeekDay, ...), assuming the UTC
  time zone.  `YearFromTime` / `MonthFromTime`, which ECMAScript defines
  descriptively ("the largest integral y such that ..."), are realised by a
  bracketing search that provably satisfies that description.
* `crypto.randomUUID()` and `Date.now()` results are passed in as explicit
  parameters: the handlers are pure functions of the store plus the fresh
  identifiers / current time they would obtain from the environment.
* Optional fields (`dueDate?`, `description?`, ...) become `Option`; JS
  truthiness tests on optional strings additionally treat `""` as absent.
-/

namespace Zentask

/-! ## Calendar arithmetic (ECMAScript Date, UTC) -/

def msPerDay : Int := 86400000

/-- ECMAScript `Day(t)`: the day number containing time value `t`. -/
def dayOf (t : Int) : Int := t / msPerDay

/-- ECMAScript `TimeWithinDay(t)` (here only its date-independent part,
milliseconds within the day). -/
def msOf (t : Int) : Int := t % msPerDay

/-- Recombine a day number and a milliseconds-within-day offset into a time
value (ECMAScript `MakeDate`). -/
def ofDay (d ms : Int) : Int := d * msPerDay + ms

/-- ECMAScript `DayFromYear(y)`: day number of January 1 of year `y`. -/
def dayFromYear (y : Int) : Int :=
  365 * (y - 1970) + (y - 1969) / 4 - (y - 1901) / 100 + (y - 1601) / 400

/-- ECMAScript `InLeapYear`: whether year `y` has 366 days. -/
def isLeap (y : Int) : Bool :=
  (y % 4 = 0 && !(y % 100 = 0)) || y % 400 = 0

/-- Day-within-year of the first day of month `m` (0-based, per ECMAScript
`DayWithinYear` / `MonthFromTime` tables); for `m ≥ 12` the number of days in
the year, used as a sentinel by the month search. -/
def monthStartDoy (leap : Bool) (m : Int) : Int :=
  let l : Int := if leap then 1 else 0
  if m ≤ 0 then 0
  else if m = 1 then 31
  else if m = 2 then 59 + l
  else if m = 3 then 90 + l
  else if m = 4 then 120 + l
  else if m = 5 then 151 + l
  else if m = 6 then 181 + l
  else if m = 7 then 212 + l
  else if m = 8 then 243 + l
  else if m = 9 then 273 + l
  else if m = 10 then 304 + l
  else if m = 11 then 334 + l
  else 365 + l

/-- Bracketing search: starting from `y`, advance while `f (y+1) ≤ d`, at most
`fuel` times.  Realises ECMAScript's "the largest `y` such that `f y ≤ d`"
style definitions on a provably sufficient fuel. -/
def bracketSearch (f : Int → Int) (d : Int) : Nat → Int → Int
  | 0, y => y
  | n + 1, y => if f (y + 1) ≤ d then bracketSearch f d n (y + 1) else y

/-- ECMAScript `YearFromTime` (on day numbers): the largest year `y` with
`dayFromYear y ≤ d`.  The 400-year Gregorian cycle (146097 days) locates the
right cycle directly; a search over the at most 400 years of that cycle
finishes the job. -/
def yearFromDay (d : Int) : Int :=
  bracketSearch dayFromYear d 399 (400 * ((d + 719528) / 146097))

/-- ECMAScript `MonthFromTime` (on a day-within-year): the largest month `m`
with `monthStartDoy leap m ≤ doy`. -/
def monthFromDoy (leap : Bool) (doy : Int) : Int :=
  bracketSearch (monthStartDoy leap) doy 11 0

structure CivilDate where
  year : Int
  month : Int
  day : Int
  deriving DecidableEq, Repr

/-- The civil (UTC) calendar fields of a day number: ECMAScript
`YearFromTime` / `MonthFromTime` / `DateFromTime`.  `month` is 0-based
(January = 0) as in JS; `day` is 1-based. -/
def civilFromDay (d : Int) : CivilDate :=
  let y := yearFromDay d
  let doy := d - dayFromYear y
  let m := monthFromDoy (isLeap y) doy
  ⟨y, m, doy - monthStartDoy (isLeap y) m + 1⟩

/-- ECMAScript `MakeDay(y, m, d)` with 0-based month `m` (arbitrary integers:
out-of-range months roll the year, out-of-range days roll the month). -/
def makeDay (y m d : Int) : Int :=
  let ym := y + m / 12
  let mn := m % 12
  dayFromYear ym + monthStartDoy (isLeap ym) mn + d - 1

/-- `date.setDate(date.getDate() + n)` on a time value. -/
def setDatePlus (t n : Int) : Int :=
  let c := civilFromDay (dayOf t)
  ofDay (makeDay c.year c.month (c.day + n)) (msOf t)

/-- `date.setMonth(date.getMonth() + n)` on a time value. -/
def setMonthPlus (t n : Int) : Int :=
  let c := civilFromDay (dayOf t)
  ofDay (makeDay c.year (c.month + n) c.day) (msOf t)

/-- `date.setFullYear(date.getFullYear() + n)` on a time value. -/
def setYearPlus (t n : Int) : Int :=
  let c := civilFromDay (dayOf t)
  ofDay (makeDay (c.year + n) c.month c.day) (msOf t)

/-- ECMAScript `WeekDay`: 0 = Sunday ... 6 = Saturday (day 0, 1970-01-01, was
a Thursday). -/
def getDay (t : Int) : Int := (dayOf t + 4) % 7

/-- The `do { +1 day } while (Sat or Sun)` loop body of the Weekdays rule,
with explicit fuel; 3 iterations always suffice (proved below), so fuel 7 is
never exhausted and the embedding coincides with the unbounded loop. -/
def wdLoop : Nat → Int → Int
  | 0, t => t
  | n + 1, t =>
    if getDay t = 0 ∨ getDay t = 6 then wdLoop n (setDatePlus t 1) else t

/-- The Weekdays recurrence: advance one day, then keep advancing while the
result falls on a weekend. -/
def weekdaysAdvance (t : Int) : Int := wdLoop 7 (setDatePlus t 1)

/-- Time value of an ISO calendar date `y-m-d` (1-based month), UTC midnight:
what `new Date("y-m-d").getTime()` yields. -/
def isoDate (y m d : Int) : Int := ofDay (makeDay y (m - 1) d) 0

/-! ## Data model (src/types.ts) -/

inductive Priority
  | None | Low | Medium | High
  deriving DecidableEq, Repr

inductive Recurrence
  | None | Daily | Weekdays | Weekly | Monthly | Yearly | Custom
  deriving DecidableEq, Repr

inductive RecurrenceUnit
  | days | weeks | months | years
  deriving DecidableEq, Repr

structure RecurrenceCustom where
  amount : Int
  unit : RecurrenceUnit
  deriving DecidableEq, Repr

structure SubTask where
  id : String
  title : String
  completed : Bool
  dueDate : Option Int
  deriving DecidableEq, Repr

structure TaskLog where
  id : String
  timestamp : Int
  message : String
  deriving DecidableEq, Repr

structure Label where
  id : String
  name : String
  color : String
  deriving DecidableEq, Repr

structure Reminder where
  id : String
  time : Int
  fired : Bool
  deriving DecidableEq, Repr

structure Attachment where
  id : String
  name : String
  type : String
  url : String
  mimeType : Option String
  size : Option Nat
  deriving DecidableEq, Repr

structure Task where
  id : String
  listId : String
  title : String
  description : Option String
  completed : Bool
  dueDate : Option Int
  deadline : Option Int
  reminders : List Reminder
  estimate : Option String
  actualTime : Option String
  priority : Priority
  subtasks : List SubTask
  recurrence : Recurrence
  recurrenceCustom : Option RecurrenceCustom
  labelIds : List String
  attachments : List Attachment
  color : Option String
  logs : List TaskLog
  createdAt : Int
  deriving DecidableEq, Repr

structure TaskList where
  id : String
  name : String
  color : String
  icon : String
  isDefault : Option Bool
  deriving DecidableEq, Repr

inductive SortOption
  | smart | dueDate | priority | added | alphabetical
  deriving DecidableEq, Repr

/-! ## Recurrence Calculator (`calculateNextDueDate`, App.tsx) -/

/-- `calculateNextDueDate` of App.tsx.  `none` input means the JS argument was
`undefined`; the `switch` has no case for `Recurrence.None`, so that rule (and
`Custom` without a config) returns the anchor unchanged. -/
def calculateNextDueDate (currentDateStr : Option Int) (recurrence : Recurrence)
    (custom : Option RecurrenceCustom) : Option Int :=
  match currentDateStr with
  | none => none
  | some t =>
    match recurrence with
    | .Daily => some (setDatePlus t 1)
    | .Weekly => some (setDatePlus t 7)
    | .Monthly => some (setMonthPlus t 1)
    | .Yearly => some (setYearPlus t 1)
    | .Weekdays => some (weekdaysAdvance t)
    | .Custom =>
      match custom with
      | some c =>
        match c.unit with
        | .days => some (setDatePlus t c.amount)
        | .weeks => some (setDatePlus t (c.amount * 7))
        | .months => some (setMonthPlus t c.amount)
        | .years => some (setYearPlus t c.amount)
      | none => some t
    | .None => some t

/-! ## Task Store handlers (App.tsx) -/

/-- An apostrophe (U+0027), used in the recurrence-spawn log message. -/
def apos : String := String.singleton (Char.ofNat 39)

/-- A double quote (U+0022). -/
def dq : String := String.singleton (Char.ofNat 34)

/-- `handleToggleTask` of App.tsx.  `logId`, `newId`, `newLogId` stand for the
`crypto.randomUUID()` results and `now` for `Date.now()` /
`new Date().toISOString()` of one invocation. -/
def handleToggleTask (id : String) (logId newId newLogId : String) (now : Int)
    (prev : List Task) : List Task :=
  match prev.findIdx? (fun t => t.id = id) with
  | none => prev
  | some taskIndex =>
    match prev[taskIndex]? with
    | none => prev
    | some task =>
      let newCompletedStatus := !task.completed
      let toggleLog : TaskLog :=
        { id := logId, timestamp := now,
          message := if newCompletedStatus then "Completed task" else "Uncompleted task" }
      let updatedTask : Task := { task with
        completed := newCompletedStatus,
        logs := task.logs ++ [toggleLog] }
      let newTasks := prev.set taskIndex updatedTask
      if newCompletedStatus = true ∧ task.recurrence ≠ Recurrence.None then
        match calculateNextDueDate (some (task.dueDate.getD now)) task.recurrence
            task.recurrenceCustom with
        | some nextDate =>
          let spawnLog : TaskLog :=
            { id := newLogId, timestamp := now,
              message := "Recurring task created from " ++ apos ++ task.title ++ apos }
          let nextTask : Task := { task with
            id := newId,
            completed := false,
            dueDate := some nextDate,
            reminders := [],
            attachments := [],
            logs := [spawnLog],
            createdAt := now }
          nextTask :: newTasks
        | none => newTasks
      else newTasks

/-- JS string truthiness for an optional string: `undefined` and `""` are
falsy. -/
def truthyS : Option String → Bool
  | none => false
  | some s => !(s = "")

/-- `lists.find(l => l.id === id)?.name || 'Inbox'`. -/
def listDisplayName (lists : List TaskList) (id : String) : String :=
  match lists.find? (fun l => l.id = id) with
  | some l => if l.name = "" then "Inbox" else l.name
  | none => "Inbox"

/-- `labels.find(l => l.id === id)?.name || 'Unknown'`. -/
def labelDisplayName (labels : List Label) (id : String) : String :=
  match labels.find? (fun l => l.id = id) with
  | some l => if l.name = "" then "Unknown" else l.name
  | none => "Unknown"

/-- Stable insertion sort.  ECMAScript requires `Array.prototype.sort` to be
stable, and with a consistent comparator the stable sorted order is unique,
so any stable sort embeds the JS sort faithfully; insertion sort is used
because it is structurally recursive and therefore computable in the
kernel. -/
def insertSorted {α : Type} (le : α → α → Bool) (a : α) : List α → List α
  | [] => [a]
  | b :: bs => if le a b then a :: b :: bs else b :: insertSorted le a bs

/-- The stable sort built from `insertSorted`. -/
def stableSort {α : Type} (le : α → α → Bool) : List α → List α
  | [] => []
  | a :: as => insertSorted le a (stableSort le as)

theorem insertSorted_perm {α : Type} (le : α → α → Bool) (a : α) :
    ∀ l : List α, (insertSorted le a l).Perm (a :: l) := by
  intro l
  induction l with
  | nil => simp [insertSorted]
  | cons b bs ih =>
    simp only [insertSorted]
    by_cases h : le a b = true
    · rw [if_pos h]
    · rw [if_neg h]
      exact List.Perm.trans (List.Perm.cons b ih) (List.Perm.swap a b bs)

theorem stableSort_perm {α : Type} (le : α → α → Bool) :
    ∀ l : List α, (stableSort le l).Perm l := by
  intro l
  induction l with
  | nil => simp [stableSort]
  | cons a as ih =>
    exact List.Perm.trans (insertSorted_perm le a (stableSort le as))
      (List.Perm.cons a ih)

theorem insertSorted_pairwise {α : Type} (le : α → α → Bool)
    (htrans : ∀ x y z, le x y = true → le y z = true → le x z = true)
    (htot : ∀ x y, le x y = true ∨ le y x = true) (a : α) :
    ∀ l : List α, l.Pairwise (fun x y => le x y = true) →
      (insertSorted le a l).Pairwise (fun x y => le x y = true) := by
  intro l
  induction l with
  | nil => intro _; simp [insertSorted]
  | cons b bs ih =>
    intro hp
    rw [List.pairwise_cons] at hp
    obtain ⟨hb, hbs⟩ := hp
    simp only [insertSorted]
    by_cases h : le a b = true
    · rw [if_pos h, List.pairwise_cons]
      refine ⟨?_, List.pairwise_cons.mpr ⟨hb, hbs⟩⟩
      intro c hc
      rcases List.mem_cons.mp hc with rfl | hcc
      · exact h
      · exact htrans a b c h (hb c hcc)
    · rw [if_neg h, List.pairwise_cons]
      refine ⟨?_, ih hbs⟩
      intro c hc
      have hc' : c ∈ a :: bs := (insertSorted_perm le a bs).mem_iff.mp hc
      rcases List.mem_cons.mp hc' with rfl | hcc
      · rcases htot b c with h1 | h1
        · exact h1
        · exact absurd h1 h
      · exact hb c hcc

theorem stableSort_pairwise {α : Type} (le : α → α → Bool)
    (htrans : ∀ x y z, le x y = true → le y z = true → le x z = true)
    (htot : ∀ x y, le x y = true ∨ le y x = true) :
    ∀ l : List α, (stableSort le l).Pairwise (fun x y => le x y = true) := by
  intro l
  induction l with
  | nil => simp [stableSort]
  | cons a as ih => exact insertSorted_pairwise le htrans htot a _ ih

/-- JS `Array.prototype.sort()` without a comparator on an array of strings:
the stable sort by code-unit order (code-point order coincides with UTF-16
order on the characters that occur in ids). -/
def sortStrings (l : List String) : List String :=
  stableSort (fun a b => !(compare a b = Ordering.gt)) l

/-- `new Date(t).toLocaleDateString()`, modelled as the en-US `M/D/YYYY`
rendering; the claims under verification never inspect this string's shape. -/
def localeDateString (t : Int) : String :=
  let c := civilFromDay (dayOf t)
  toString (c.month + 1) ++ "/" ++ toString c.day ++ "/" ++ toString c.year

def priorityName : Priority → String
  | .None => "None"
  | .Low => "Low"
  | .Medium => "Medium"
  | .High => "High"

/-- JS `Map` built from a list of `(id, subtask)` entries: a later entry wins,
so lookup returns the last subtask with the given id. -/
def subtaskLookup (l : List SubTask) (id : String) : Option SubTask :=
  l.reverse.find? (fun s => s.id = id)

/-- The messages of the log entries `handleUpdateTask` synthesizes by diffing
the stored task `t` against the incoming snapshot `updatedTask`, in push
order.  The label diff runs on the sorted copies because JS `Array.sort`
sorts in place before the `JSON.stringify` comparison. -/
def synthMessages (t updatedTask : Task) (labels : List Label)
    (lists : List TaskList) : List String :=
  (if t.title ≠ updatedTask.title then
    ["Renamed to " ++ dq ++ updatedTask.title ++ dq] else [])
  ++ (if t.description ≠ updatedTask.description then
      (if !truthyS t.description && truthyS updatedTask.description then
        ["Added description"]
      else if truthyS t.description && !truthyS updatedTask.description then
        ["Removed description"]
      else ["Updated description"])
    else [])
  ++ (if t.dueDate ≠ updatedTask.dueDate then
      (match updatedTask.dueDate with
      | some d =>
        [(if t.dueDate.isSome then "Rescheduled to " else "Set due date to ")
          ++ localeDateString d]
      | none => ["Removed due date"])
    else [])
  ++ (if t.deadline ≠ updatedTask.deadline then
      (match updatedTask.deadline with
      | some d =>
        [(if t.deadline.isSome then "Changed deadline to " else "Set deadline to ")
          ++ localeDateString d]
      | none => ["Removed deadline"])
    else [])
  ++ (if t.priority ≠ updatedTask.priority then
      ["Changed priority from " ++ priorityName t.priority ++ " to "
        ++ priorityName updatedTask.priority] else [])
  ++ (if t.listId ≠ updatedTask.listId then
      ["Moved from " ++ listDisplayName lists t.listId ++ " to "
        ++ listDisplayName lists updatedTask.listId] else [])
  ++ (if t.estimate ≠ updatedTask.estimate then
      (if truthyS updatedTask.estimate then
        ["Set estimate to " ++ updatedTask.estimate.getD ""]
      else ["Removed estimate"])
    else [])
  ++ (if t.actualTime ≠ updatedTask.actualTime then
      (if truthyS updatedTask.actualTime then
        ["Logged actual time: " ++ updatedTask.actualTime.getD ""]
      else ["Removed actual time log"])
    else [])
  ++ (let oldLabels := sortStrings t.labelIds
      let newLabels := sortStrings updatedTask.labelIds
      if oldLabels ≠ newLabels then
        (newLabels.filter (fun i => !oldLabels.contains i)).map
          (fun i => "Added label " ++ dq ++ labelDisplayName labels i ++ dq)
        ++ (oldLabels.filter (fun i => !newLabels.contains i)).map
          (fun i => "Removed label " ++ dq ++ labelDisplayName labels i ++ dq)
      else [])
  ++ (if t.attachments.length ≠ updatedTask.attachments.length then
      (updatedTask.attachments.filter
          (fun a => !t.attachments.any (fun oa => oa.id = a.id))).map
        (fun a => "Added attachment " ++ dq ++ a.name ++ dq)
      ++ (t.attachments.filter
          (fun a => !updatedTask.attachments.any (fun na => na.id = a.id))).map
        (fun a => "Removed attachment " ++ dq ++ a.name ++ dq)
    else [])
  ++ updatedTask.subtasks.flatMap (fun ns =>
      if !t.subtasks.any (fun s => s.id = ns.id) then
        ["Added subtask: " ++ dq ++ ns.title ++ dq]
      else
        match subtaskLookup t.subtasks ns.id with
        | some os =>
          (if os.completed ≠ ns.completed then
            [(if ns.completed then "Completed" else "Uncompleted")
              ++ " subtask: " ++ dq ++ ns.title ++ dq] else [])
          ++ (if os.title ≠ ns.title then
              ["Renamed subtask to " ++ dq ++ ns.title ++ dq] else [])
          ++ (if os.dueDate ≠ ns.dueDate then
              (if ns.dueDate.isSome && !os.dueDate.isSome then
                ["Set due date for subtask " ++ dq ++ ns.title ++ dq]
              else if !ns.dueDate.isSome && os.dueDate.isSome then
                ["Removed due date from subtask " ++ dq ++ ns.title ++ dq]
              else if ns.dueDate.isSome && os.dueDate.isSome then
                ["Rescheduled subtask " ++ dq ++ ns.title ++ dq]
              else [])
            else [])
        | none => [])
  ++ t.subtasks.flatMap (fun os =>
      if !updatedTask.subtasks.any (fun s => s.id = os.id) then
        ["Deleted subtask: " ++ dq ++ os.title ++ dq]
      else [])

/-- The synthesized diff log entries: each pushed message paired with the
`crypto.randomUUID()` it received (`idsf k` is the id handed to the `k`-th
push) and the shared `Date.now()` timestamp. -/
def synthLogs (t updatedTask : Task) (labels : List Label) (lists : List TaskList)
    (now : Int) (idsf : Nat → String) : List TaskLog :=
  (synthMessages t updatedTask labels lists).enum.map
    (fun p => { id := idsf p.1, timestamp := now, message := p.2 })

/-- The per-task body of `handleUpdateTask` when the stored task `t` matches
the snapshot's id: the returned record is the snapshot with the merged log
list — and with `labelIds` sorted, because the in-place `sort()` in the label
diff mutated the snapshot's array. -/
def applyUpdateTask (t updatedTask : Task) (labels : List Label)
    (lists : List TaskList) (now : Int) (idsf : Nat → String) : Task :=
  let newLogs := synthLogs t updatedTask labels lists now idsf
  let logsFromModal :=
    updatedTask.logs.filter (fun l => !(t.logs.any (fun x => x.id = l.id)))
  let meaningfulLogsFromModal :=
    logsFromModal.filter (fun l => !(l.message = "Updated task details"))
  { updatedTask with
    labelIds := sortStrings updatedTask.labelIds,
    logs := t.logs ++ meaningfulLogsFromModal ++ newLogs }

/-- `handleUpdateTask` of App.tsx. -/
def handleUpdateTask (updatedTask : Task) (labels : List Label)
    (lists : List TaskList) (now : Int) (idsf : Nat → String)
    (prev : List Task) : List Task :=
  prev.map (fun t =>
    if t.id = updatedTask.id then applyUpdateTask t updatedTask labels lists now idsf
    else t)

/-- `handleDeleteTask` of App.tsx (the store part; clearing the UI selection
is out of model). -/
def handleDeleteTask (id : String) (prev : List Task) : List Task :=
  prev.filter (fun t => !(t.id = id))

/-! ## Reminder Scheduler (the 10-second interval effect, App.tsx) -/

/-- One tick of the reminder interval.  The source's `hasUpdates` flag only
decides whether to return the mapped array or the (then element-wise equal)
original, so the mapped array is the value in either case. -/
def reminderTick (now : Int) (currentTasks : List Task) : List Task :=
  currentTasks.map (fun task =>
    if task.completed || task.reminders.length = 0 then task
    else
      let remindersToFire :=
        task.reminders.filter (fun r => !r.fired && r.time ≤ now)
      if remindersToFire.length > 0 then
        { task with reminders := task.reminders.map (fun r =>
            if remindersToFire.any (fun rt => rt.id = r.id) then
              { r with fired := true }
            else r) }
      else task)

/-! ## View Filter/Sort Engine (`filteredTasks`, App.tsx) -/

def prioOrder : Priority → Int
  | .High => 3
  | .Medium => 2
  | .Low => 1
  | .None => 0

/-- `a.title.localeCompare(b.title)` modelled as code-point comparison (the
actual result is locale-dependent; only its sign is ever used). -/
def titleCompare (a b : String) : Int :=
  match compare a b with
  | .lt => -1
  | .eq => 0
  | .gt => 1

/-- The comparator passed to `Array.prototype.sort` in `filteredTasks`. -/
def cmpTasks (sortBy : SortOption) (a b : Task) : Int :=
  if a.completed ≠ b.completed then (if a.completed then 1 else -1)
  else
    match sortBy with
    | .dueDate =>
      match a.dueDate, b.dueDate with
      | some x, some y => x - y
      | some _, none => -1
      | none, some _ => 1
      | none, none => 0
    | .priority =>
      if prioOrder b.priority ≠ prioOrder a.priority then
        prioOrder b.priority - prioOrder a.priority
      else 0
    | .added => b.createdAt - a.createdAt
    | .alphabetical => titleCompare a.title b.title
    | .smart =>
      if prioOrder b.priority ≠ prioOrder a.priority then
        prioOrder b.priority - prioOrder a.priority
      else
        match a.dueDate, b.dueDate with
        | some x, some y => x - y
        | some _, none => -1
        | none, some _ => 1
        | none, none => 0

/-- JS `Array.prototype.sort` with a consistent comparator is required by
ECMAScript to be a stable sort; `cmpTasks` is consistent (transitive and
total in the `≤ 0` reading, proved below), so the stable sort computes the
same list the browser does. -/
def sortTasks (sortBy : SortOption) (l : List Task) : List Task :=
  stableSort (fun a b => cmpTasks sortBy a b ≤ 0) l

def listStarts : List Char → List Char → Bool
  | [], _ => true
  | _ :: _, [] => false
  | a :: as, b :: bs => a = b && listStarts as bs

def listHasSub (pat : List Char) : List Char → Bool
  | [] => listStarts pat []
  | c :: cs => listStarts pat (c :: cs) || listHasSub pat cs

/-- JS `String.prototype.includes`. -/
def strIncludes (s sub : String) : Bool := listHasSub sub.data s.data

/-- `isToday` of App.tsx: same calendar day (UTC in this model) as `now`. -/
def isToday (dateString : Option Int) (now : Int) : Bool :=
  match dateString with
  | none => false
  | some d =>
    let cd := civilFromDay (dayOf d)
    let ct := civilFromDay (dayOf now)
    cd.day = ct.day && cd.month = ct.month && cd.year = ct.year

/-- `isNext7Days` of App.tsx: within `[now, now + 7 days]` (the upper bound is
`setDate(+7)` on the current instant, which preserves the time of day). -/
def isNext7Days (dateString : Option Int) (now : Int) : Bool :=
  match dateString with
  | none => false
  | some d => now ≤ d && d ≤ setDatePlus now 7

/-- The `filteredTasks` memo of App.tsx: view partition, then sort.  The
active view is a string as in the source ('inbox', 'search', a list id, a
label id, ...). -/
def filteredTasks (tasks : List Task) (activeView : String) (searchQuery : String)
    (labels : List Label) (now : Int) (sortBy : SortOption) : List Task :=
  if activeView = "activity" then []
  else
    let filtered :=
      if activeView = "search" then
        if searchQuery ≠ "" then
          let lowerQ := searchQuery.toLower
          tasks.filter (fun t =>
            strIncludes t.title.toLower lowerQ ||
            (match t.description with
            | some d => strIncludes d.toLower lowerQ
            | none => false))
        else tasks
      else if labels.any (fun l => l.id = activeView) then
        tasks.filter (fun t => t.labelIds.contains activeView && !t.completed)
      else if activeView = "inbox" then
        tasks.filter (fun t => t.listId = "inbox" && !t.completed)
      else if activeView = "today" then
        tasks.filter (fun t => isToday t.dueDate now && !t.completed)
      else if activeView = "next7" then
        tasks.filter (fun t => isNext7Days t.dueDate now && !t.completed)
      else if activeView = "upcoming" then
        tasks.filter (fun t =>
          (match t.dueDate with
          | some d => decide (now < d)
          | none => false) && !t.completed)
      else if activeView = "all" then tasks
      else tasks.filter (fun t => t.listId = activeView && !t.completed)
    sortTasks sortBy filtered

/-! ## Calendar lemmas -/

theorem dayFromYear_succ (y : Int) :
    dayFromYear (y + 1) = dayFromYear y + (if isLeap y then 366 else 365) := by
  by_cases h4 : y % 4 = 0 <;> by_cases h100 : y % 100 = 0 <;>
    by_cases h400 : y % 400 = 0 <;>
    simp only [dayFromYear, isLeap, h4, h100, h400] <;> simp <;> omega

theorem dayFromYear_cycle (q : Int) : dayFromYear (400 * q) = 146097 * q - 719528 := by
  unfold dayFromYear; omega

theorem bracketSearch_spec (f : Int → Int) (d : Int) :
    ∀ (n : Nat) (y : Int), f y ≤ d → d < f (y + (n : Int) + 1) →
      f (bracketSearch f d n y) ≤ d ∧ d < f (bracketSearch f d n y + 1) ∧
      y ≤ bracketSearch f d n y ∧ bracketSearch f d n y ≤ y + (n : Int) := by
  intro n
  induction n with
  | zero =>
    intro y h1 h2
    simp only [bracketSearch]
    exact ⟨h1, by simpa using h2, le_refl y, by simp⟩
  | succ n ih =>
    intro y h1 h2
    by_cases h : f (y + 1) ≤ d
    · have harg : y + ((n : Int) + 1) + 1 = (y + 1) + (n : Int) + 1 := by ring
      rw [show ((n + 1 : Nat) : Int) = (n : Int) + 1 by push_cast; ring, harg] at h2
      have := ih (y + 1) h h2
      simp only [bracketSearch, if_pos h]
      refine ⟨this.1, this.2.1, by omega, by push_cast; omega⟩
    · simp only [bracketSearch, if_neg h]
      refine ⟨h1, by omega, le_refl y, by push_cast; omega⟩

theorem yearFromDay_spec (d : Int) :
    dayFromYear (yearFromDay d) ≤ d ∧ d < dayFromYear (yearFromDay d + 1) := by
  have h1 : dayFromYear (400 * ((d + 719528) / 146097)) ≤ d := by
    rw [dayFromYear_cycle]; omega
  have h2 : d < dayFromYear (400 * ((d + 719528) / 146097) + (399 : Nat) + 1) := by
    have hc := dayFromYear_cycle ((d + 719528) / 146097 + 1)
    have harg : 400 * ((d + 719528) / 146097 + 1) =
        400 * ((d + 719528) / 146097) + (399 : Nat) + 1 := by push_cast; ring
    rw [harg] at hc
    rw [hc]; omega
  have := bracketSearch_spec dayFromYear d 399 (400 * ((d + 719528) / 146097)) h1 h2
  exact ⟨this.1, this.2.1⟩

theorem monthStartDoy_zero (leap : Bool) : monthStartDoy leap 0 = 0 := by
  cases leap <;> rfl

theorem monthStartDoy_twelve (leap : Bool) :
    monthStartDoy leap 12 = 365 + (if leap then 1 else 0) := by
  cases leap <;> rfl

theorem monthStartDoy_strict (leap : Bool) (m : Int) (h0 : 0 ≤ m) (h1 : m ≤ 11) :
    monthStartDoy leap m < monthStartDoy leap (m + 1) := by
  interval_cases m <;> cases leap <;> decide

/-- The civil fields produced by `civilFromDay` recombine (via `makeDay`) to
the original day number, and the month lies in `[0, 11]`. -/
theorem civilFromDay_spec (d : Int) :
    0 ≤ (civilFromDay d).month ∧ (civilFromDay d).month ≤ 11 ∧
    makeDay (civilFromDay d).year (civilFromDay d).month (civilFromDay d).day = d := by
  obtain ⟨hy1, hy2⟩ := yearFromDay_spec d
  have hdoyLt : d - dayFromYear (yearFromDay d) <
      monthStartDoy (isLeap (yearFromDay d)) 12 := by
    rw [monthStartDoy_twelve]
    have hs := dayFromYear_succ (yearFromDay d)
    by_cases hl : isLeap (yearFromDay d) <;> simp [hl] at hs ⊢ <;> omega
  have hm := bracketSearch_spec (monthStartDoy (isLeap (yearFromDay d)))
    (d - dayFromYear (yearFromDay d)) 11 0
    (by rw [monthStartDoy_zero]; omega)
    (by simpa using hdoyLt)
  simp only [civilFromDay, monthFromDoy, makeDay]
  obtain ⟨hm1, hm2, hm3, hm4⟩ := hm
  refine ⟨hm3, by simpa using hm4, ?_⟩
  have hdiv : (bracketSearch (monthStartDoy (isLeap (yearFromDay d)))
      (d - dayFromYear (yearFromDay d)) 11 0) / 12 = 0 := by
    simp at hm4; omega
  have hmod : (bracketSearch (monthStartDoy (isLeap (yearFromDay d)))
      (d - dayFromYear (yearFromDay d)) 11 0) % 12 =
      bracketSearch (monthStartDoy (isLeap (yearFromDay d)))
      (d - dayFromYear (yearFromDay d)) 11 0 := by
    simp at hm4; omega
  rw [hdiv, hmod]
  simp only [add_zero]
  omega

/-- `makeDay` as a function of the flattened month index `12*y + m`. -/
def monthsG (M : Int) : Int :=
  dayFromYear (M / 12) + monthStartDoy (isLeap (M / 12)) (M % 12)

theorem makeDay_monthsG (y m d : Int) :
    makeDay y m d = monthsG (12 * y + m) + d - 1 := by
  unfold makeDay monthsG
  have h1 : (12 * y + m) / 12 = y + m / 12 := by omega
  have h2 : (12 * y + m) % 12 = m % 12 := by omega
  rw [h1, h2]

theorem monthsG_step (M : Int) : monthsG M < monthsG (M + 1) := by
  unfold monthsG
  by_cases hmn : M % 12 = 11
  · have hdiv : (M + 1) / 12 = M / 12 + 1 := by omega
    have hmod : (M + 1) % 12 = 0 := by omega
    rw [hdiv, hmod, hmn, monthStartDoy_zero]
    have hs := dayFromYear_succ (M / 12)
    have hf : monthStartDoy false 11 = 334 := by decide
    have ht : monthStartDoy true 11 = 335 := by decide
    cases hl : isLeap (M / 12) <;> simp at hs <;> omega
  · have hdiv : (M + 1) / 12 = M / 12 := by omega
    have hmod : (M + 1) % 12 = M % 12 + 1 := by omega
    rw [hdiv, hmod]
    have := monthStartDoy_strict (isLeap (M / 12)) (M % 12) (by omega) (by omega)
    omega

theorem monthsG_mono : StrictMono monthsG :=
  strictMono_int_of_lt_succ monthsG_step

theorem setDatePlus_eq (t n : Int) : setDatePlus t n = t + n * msPerDay := by
  obtain ⟨h0, h11, hmk⟩ := civilFromDay_spec (dayOf t)
  simp only [setDatePlus, ofDay]
  have hl : makeDay (civilFromDay (dayOf t)).year (civilFromDay (dayOf t)).month
      ((civilFromDay (dayOf t)).day + n) = dayOf t + n := by
    simp only [makeDay] at hmk ⊢; omega
  rw [hl]
  simp only [dayOf, msOf, msPerDay]
  omega

theorem setMonthPlus_lt (t n : Int) (hn : 1 ≤ n) : t < setMonthPlus t n := by
  obtain ⟨h0, h11, hmk⟩ := civilFromDay_spec (dayOf t)
  simp only [setMonthPlus, ofDay]
  have h1 := makeDay_monthsG (civilFromDay (dayOf t)).year
    ((civilFromDay (dayOf t)).month + n) (civilFromDay (dayOf t)).day
  have h2 := makeDay_monthsG (civilFromDay (dayOf t)).year
    (civilFromDay (dayOf t)).month (civilFromDay (dayOf t)).day
  have h3 : monthsG (12 * (civilFromDay (dayOf t)).year + (civilFromDay (dayOf t)).month) <
      monthsG (12 * (civilFromDay (dayOf t)).year + ((civilFromDay (dayOf t)).month + n)) :=
    monthsG_mono (by omega)
  have hday : dayOf t < makeDay (civilFromDay (dayOf t)).year
      ((civilFromDay (dayOf t)).month + n) (civilFromDay (dayOf t)).day := by omega
  simp only [dayOf, msOf, msPerDay] at hday ⊢
  omega

theorem setYearPlus_lt (t n : Int) (hn : 1 ≤ n) : t < setYearPlus t n := by
  obtain ⟨h0, h11, hmk⟩ := civilFromDay_spec (dayOf t)
  simp only [setYearPlus, ofDay]
  have h1 := makeDay_monthsG ((civilFromDay (dayOf t)).year + n)
    (civilFromDay (dayOf t)).month (civilFromDay (dayOf t)).day
  have h2 := makeDay_monthsG (civilFromDay (dayOf t)).year
    (civilFromDay (dayOf t)).month (civilFromDay (dayOf t)).day
  have h3 : monthsG (12 * (civilFromDay (dayOf t)).year + (civilFromDay (dayOf t)).month) <
      monthsG (12 * ((civilFromDay (dayOf t)).year + n) + (civilFromDay (dayOf t)).month) :=
    monthsG_mono (by omega)
  have hday : dayOf t < makeDay ((civilFromDay (dayOf t)).year + n)
      (civilFromDay (dayOf t)).month (civilFromDay (dayOf t)).day := by omega
  simp only [dayOf, msOf, msPerDay] at hday ⊢
  omega

theorem getDay_shift (t k : Int) :
    getDay (t + k * msPerDay) = (t / msPerDay + k + 4) % 7 := by
  unfold getDay dayOf msPerDay
  omega

/-- The Weekdays loop advances by 1, 2 or 3 days and always lands on a
Monday-through-Friday day. -/
theorem weekdaysAdvance_spec (t : Int) :
    (weekdaysAdvance t = t + 1 * msPerDay ∨ weekdaysAdvance t = t + 2 * msPerDay ∨
      weekdaysAdvance t = t + 3 * msPerDay) ∧
    1 ≤ getDay (weekdaysAdvance t) ∧ getDay (weekdaysAdvance t) ≤ 5 := by
  have hstop : ∀ (n : Nat) (u : Int), ¬(getDay u = 0 ∨ getDay u = 6) →
      wdLoop (n + 1) u = u := by
    intro n u h; simp only [wdLoop, if_neg h]
  have hgo : ∀ (n : Nat) (u : Int), (getDay u = 0 ∨ getDay u = 6) →
      wdLoop (n + 1) u = wdLoop n (setDatePlus u 1) := by
    intro n u h; simp only [wdLoop, if_pos h]
  have hstep : ∀ u : Int, setDatePlus u 1 = u + 86400000 := by
    intro u; rw [setDatePlus_eq]; simp only [msPerDay]; ring
  have hg1 : getDay (t + 86400000) = (t / 86400000 + 5) % 7 := by
    unfold getDay dayOf msPerDay; omega
  have hg2 : getDay (t + 86400000 + 86400000) = (t / 86400000 + 6) % 7 := by
    unfold getDay dayOf msPerDay; omega
  have hg3 : getDay (t + 86400000 + 86400000 + 86400000) = (t / 86400000 + 7) % 7 := by
    unfold getDay dayOf msPerDay; omega
  simp only [msPerDay]
  unfold weekdaysAdvance
  rw [hstep]
  have he : t / 86400000 % 7 = 0 ∨ t / 86400000 % 7 = 1 ∨ t / 86400000 % 7 = 2 ∨
      t / 86400000 % 7 = 3 ∨ t / 86400000 % 7 = 4 ∨ t / 86400000 % 7 = 5 ∨
      t / 86400000 % 7 = 6 := by omega
  rcases he with h | h | h | h | h | h | h
  · -- Thursday anchor: +1 lands on Friday
    rw [hstop 6 _ (by rw [hg1]; omega)]
    exact ⟨Or.inl (by ring), by rw [hg1]; omega, by rw [hg1]; omega⟩
  · -- Friday anchor: +1 Saturday, +2 Sunday, +3 Monday
    rw [hgo 6 _ (by rw [hg1]; omega), hstep,
      hgo 5 _ (by rw [hg2]; omega), hstep,
      hstop 4 _ (by rw [hg3]; omega)]
    exact ⟨Or.inr (Or.inr (by ring)), by rw [hg3]; omega, by rw [hg3]; omega⟩
  · -- Saturday anchor: +1 Sunday, +2 Monday
    rw [hgo 6 _ (by rw [hg1]; omega), hstep,
      hstop 5 _ (by rw [hg2]; omega)]
    exact ⟨Or.inr (Or.inl (by ring)), by rw [hg2]; omega, by rw [hg2]; omega⟩
  · -- Sunday anchor: plus one day is Monday
    rw [hstop 6 _ (by rw [hg1]; omega)]
    exact ⟨Or.inl (by ring), by rw [hg1]; omega, by rw [hg1]; omega⟩
  · -- Monday anchor: +1 Tuesday
    rw [hstop 6 _ (by rw [hg1]; omega)]
    exact ⟨Or.inl (by ring), by rw [hg1]; omega, by rw [hg1]; omega⟩
  · -- Tuesday anchor: +1 Wednesday
    rw [hstop 6 _ (by rw [hg1]; omega)]
    exact ⟨Or.inl (by ring), by rw [hg1]; omega, by rw [hg1]; omega⟩
  · -- Wednesday anchor: +1 Thursday
    rw [hstop 6 _ (by rw [hg1]; omega)]
    exact ⟨Or.inl (by ring), by rw [hg1]; omega, by rw [hg1]; omega⟩

/-- With an anchor present, the calculator always produces a date; `nextOf`
names it. -/
def nextOf (t : Int) (rule : Recurrence) (cfg : Option RecurrenceCustom) : Int :=
  (calculateNextDueDate (some t) rule cfg).getD t

theorem calculateNextDueDate_some (t : Int) (rule : Recurrence)
    (cfg : Option RecurrenceCustom) :
    calculateNextDueDate (some t) rule cfg = some (nextOf t rule cfg) := by
  rcases rule <;>
    first
    | rfl
    | (rcases cfg with _ | ⟨a, u⟩
       · rfl
       · rcases u <;> rfl)

/-! ## List lemmas for the store handlers -/

theorem findIdx?_shift {α : Type} (p : α → Bool) :
    ∀ (l : List α) (s : Nat), l.findIdx? p s = (l.findIdx? p).map (· + s) := by
  intro l
  induction l with
  | nil => intro s; rfl
  | cons x xs ih =>
    intro s
    rw [List.findIdx?_cons, List.findIdx?_cons]
    by_cases h : p x = true
    · simp [h]
    · simp only [h, if_false, ih (s + 1), ih (0 + 1), Option.map_map]
      cases xs.findIdx? p
      · simp
      · simp
        omega

theorem findIdx?_cons_zero {α : Type} (p : α → Bool) (x : α) (xs : List α) :
    (x :: xs).findIdx? p =
      if p x = true then some 0 else (xs.findIdx? p).map (· + 1) := by
  rw [List.findIdx?_cons]
  by_cases h : p x = true
  · simp [h]
  · simp only [h, if_false]
    rw [findIdx?_shift p xs (0 + 1)]

theorem findIdx?_some_lt {α : Type} (p : α → Bool) :
    ∀ (l : List α) (i : Nat), l.findIdx? p = some i → i < l.length := by
  intro l
  induction l with
  | nil => intro i h; simp at h
  | cons x xs ih =>
    intro i h
    rw [findIdx?_cons_zero] at h
    by_cases hx : p x = true
    · simp [hx] at h
      simp only [List.length_cons]
      omega
    · simp only [hx, if_false] at h
      rcases hm : xs.findIdx? p with _ | j
      · rw [hm] at h; simp at h
      · rw [hm] at h; simp at h
        have := ih j hm
        simp only [List.length_cons]
        omega

theorem findIdx?_some_prop {α : Type} (p : α → Bool) :
    ∀ (l : List α) (i : Nat) (a : α), l.findIdx? p = some i → l[i]? = some a →
      p a = true := by
  intro l
  induction l with
  | nil => intro i a h; simp at h
  | cons x xs ih =>
    intro i a h hg
    rw [findIdx?_cons_zero] at h
    by_cases hx : p x = true
    · simp [hx] at h
      subst h
      simp at hg
      subst hg
      exact hx
    · simp only [hx, if_false] at h
      rcases hm : xs.findIdx? p with _ | j
      · rw [hm] at h; simp at h
      · rw [hm] at h; simp at h
        subst h
        simp at hg
        exact ih j a hm hg

theorem findIdx?_set {α : Type} (p : α → Bool) :
    ∀ (l : List α) (i : Nat) (a' : α), l.findIdx? p = some i → p a' = true →
      (l.set i a').findIdx? p = some i := by
  intro l
  induction l with
  | nil => intro i a' h; simp at h
  | cons x xs ih =>
    intro i a' h hp
    rw [findIdx?_cons_zero] at h
    by_cases hx : p x = true
    · simp [hx] at h
      subst h
      simp only [List.set, findIdx?_cons_zero, hp, if_true]
    · simp only [hx, if_false] at h
      rcases hm : xs.findIdx? p with _ | j
      · rw [hm] at h; simp at h
      · rw [hm] at h; simp at h
        subst h
        show (x :: xs.set j a').findIdx? p = some (j + 1)
        rw [findIdx?_cons_zero, ih j a' hm hp]
        simp [hx]

/-! ## Shared concrete fixtures -/

/-- A minimal concrete task used by witnesses and counterexamples. -/
def baseTask : Task :=
  { id := "t1", listId := "inbox", title := "A", description := none,
    completed := false, dueDate := none, deadline := none, reminders := [],
    estimate := none, actualTime := none, priority := Priority.None,
    subtasks := [], recurrence := Recurrence.None, recurrenceCustom := none,
    labelIds := [], attachments := [], color := none, logs := [], createdAt := 0 }

/-- A task whose recurrence is Weekly and whose due date is 2024-01-01, for
the concrete scenario of C1. -/
def weeklyTask : Task :=
  { baseTask with recurrence := Recurrence.Weekly, dueDate := some (isoDate 2024 1 1) }

/-- An update snapshot of `baseTask` that renames it, completes it and
reorders its labels. -/
def snapB : Task :=
  { baseTask with title := "B", completed := true, labelIds := ["l2", "l1"] }

/-- An update snapshot of `baseTask` that renames it and carries one
placeholder modal log. -/
def snapModal : Task :=
  { baseTask with
    title := "B",
    logs := [{ id := "ml", timestamp := 1, message := "Updated task details" }] }

def attA : Attachment :=
  { id := "a1", name := "A", type := "file", url := "u", mimeType := none, size := none }

def attB : Attachment :=
  { id := "a2", name := "B", type := "file", url := "u", mimeType := none, size := none }

def attC : Attachment :=
  { id := "a3", name := "C", type := "file", url := "u", mimeType := none, size := none }

/-- A stored task holding attachment A. -/
def taskAttA : Task := { baseTask with attachments := [attA] }

/-- A snapshot that swaps attachment A for B (same attachment count). -/
def snapAttB : Task := { baseTask with attachments := [attB] }

/-- A snapshot that replaces attachment A with B and C (count changes). -/
def snapAttBC : Task := { baseTask with attachments := [attB, attC] }

/-! ## Update-handler reduction lemmas -/

theorem synthLogs_messages (t u : Task) (labels : List Label) (lists : List TaskList)
    (now : Int) (idsf : Nat → String) :
    (synthLogs t u labels lists now idsf).map (fun l => l.message) =
      synthMessages t u labels lists := by
  unfold synthLogs
  rw [List.map_map]
  exact List.enum_map_snd _

theorem exists_split_snoc {α : Type} (B : List α) {rest X Y : List α}
    (h : ∃ pre post, rest = pre ++ (X ++ (Y ++ post))) :
    ∃ pre post, rest ++ B = pre ++ (X ++ (Y ++ post)) := by
  obtain ⟨p, q, hpq⟩ := h
  refine ⟨p, q ++ B, ?_⟩
  rw [hpq]
  simp [List.append_assoc]

theorem exists_split_base {α : Type} (R X Y : List α) :
    ∃ pre post, R ++ (X ++ Y) = pre ++ (X ++ (Y ++ post)) :=
  ⟨R, [], by simp⟩

/-- When the attachment counts differ, the synthesized messages contain the
contiguous block of one "Added attachment" line per id-new attachment
followed by one "Removed attachment" line per id-dropped attachment. -/
theorem synthMessages_attach_split (t u : Task) (labels : List Label)
    (lists : List TaskList) (hlen : t.attachments.length ≠ u.attachments.length) :
    ∃ pre post, synthMessages t u labels lists =
      pre ++ ((u.attachments.filter
          (fun a => !(t.attachments.any (fun oa => oa.id = a.id)))).map
          (fun a => "Added attachment " ++ dq ++ a.name ++ dq) ++
        (((t.attachments.filter
          (fun a => !(u.attachments.any (fun na => na.id = a.id)))).map
          (fun a => "Removed attachment " ++ dq ++ a.name ++ dq)) ++ post)) := by
  unfold synthMessages
  rw [if_pos hlen]
  apply exists_split_snoc
  apply exists_split_snoc
  exact exists_split_base _ _ _

/-! ## Toggle-handler reduction lemmas -/

theorem handleToggleTask_noSpawn (prev : List Task) (tid logId newId newLogId : String)
    (now : Int) (i : Nat) (task : Task)
    (hfind : prev.findIdx? (fun t => t.id = tid) = some i)
    (hget : prev[i]? = some task)
    (hns : ¬((!task.completed) = true ∧ task.recurrence ≠ Recurrence.None)) :
    handleToggleTask tid logId newId newLogId now prev =
      prev.set i
        { task with
          completed := !task.completed,
          logs := task.logs ++
            [{ id := logId, timestamp := now,
               message := if !task.completed then "Completed task"
                          else "Uncompleted task" }] } := by
  unfold handleToggleTask
  rw [hfind]
  simp only [hget]
  rw [if_neg hns]

theorem handleToggleTask_spawn (prev : List Task) (tid logId newId newLogId : String)
    (now : Int) (i : Nat) (task : Task)
    (hfind : prev.findIdx? (fun t => t.id = tid) = some i)
    (hget : prev[i]? = some task)
    (hc : task.completed = false) (hr : task.recurrence ≠ Recurrence.None) :
    handleToggleTask tid logId newId newLogId now prev =
      { task with
        id := newId,
        completed := false,
        dueDate := some (nextOf (task.dueDate.getD now) task.recurrence
          task.recurrenceCustom),
        reminders := [],
        attachments := [],
        logs := [{ id := newLogId, timestamp := now,
                   message := "Recurring task created from " ++ apos ++ task.title
                     ++ apos }],
        createdAt := now } ::
      prev.set i
        { task with
          completed := true,
          logs := task.logs ++
            [{ id := logId, timestamp := now, message := "Completed task" }] } := by
  unfold handleToggleTask
  rw [hfind]
  simp only [hget]
  rw [if_pos (by simp [hc, hr]), calculateNextDueDate_some]
  simp [hc]

/-! ## Claims -/

/-- C2, counterexample to the claim as stated: the rules `None` and
`Custom`-with-amount-0 are not excluded by "except Custom-without-config", yet
on both the calculator returns the anchor itself, which is not strictly after
the anchor. -/
theorem next_due_strictly_after_counterexample :
    calculateNextDueDate (some 0) Recurrence.None none = some 0 ∧
    calculateNextDueDate (some 0) Recurrence.Custom
      (some { amount := 0, unit := RecurrenceUnit.days }) = some 0 := by
  constructor
  · rfl
  · show some (setDatePlus 0 0) = some 0
    rw [setDatePlus_eq]
    simp [msPerDay]

/-- C2 (amended): for every recurrence rule other than `None` and other than
`Custom` without a config — with the custom amount at least 1, per the spec's
contract `amount: int>=1` — the calculator applied to a present anchor
returns a value (determinism is immediate: it is a pure function), and that
value is strictly after the anchor; for `Weekdays` the result always falls on
Monday–Friday (day-of-week 1..5) and is reached after at most 2 extra
one-day steps beyond the first, i.e. at most 3 days past the anchor.  The
claim as frozen also quantified over `None`, where the code returns the
anchor unchanged (see the counterexample). -/
theorem next_due_strictly_after (t : Int) (rule : Recurrence)
    (cfg : Option RecurrenceCustom)
    (hNone : rule ≠ Recurrence.None)
    (hCustom : rule = Recurrence.Custom → ∃ c, cfg = some c ∧ 1 ≤ c.amount) :
    calculateNextDueDate (some t) rule cfg = some (nextOf t rule cfg) ∧
    t < nextOf t rule cfg ∧
    (rule = Recurrence.Weekdays →
      (1 ≤ getDay (nextOf t rule cfg) ∧ getDay (nextOf t rule cfg) ≤ 5) ∧
      nextOf t rule cfg ≤ t + 3 * msPerDay) := by
  refine ⟨calculateNextDueDate_some t rule cfg, ?_⟩
  rcases rule
  · exact absurd rfl hNone
  · -- Daily
    refine ⟨?_, fun h => nomatch h⟩
    show t < setDatePlus t 1
    rw [setDatePlus_eq]
    simp only [msPerDay]
    omega
  · -- Weekdays
    obtain ⟨hdisj, hlo, hhi⟩ := weekdaysAdvance_spec t
    have hv : nextOf t Recurrence.Weekdays cfg = weekdaysAdvance t := rfl
    rw [hv]
    refine ⟨?_, fun _ => ⟨⟨hlo, hhi⟩, ?_⟩⟩ <;>
      rcases hdisj with h | h | h <;> rw [h] <;> simp only [msPerDay] <;> omega
  · -- Weekly
    refine ⟨?_, fun h => nomatch h⟩
    show t < setDatePlus t 7
    rw [setDatePlus_eq]
    simp only [msPerDay]
    omega
  · -- Monthly
    exact ⟨setMonthPlus_lt t 1 le_rfl, fun h => nomatch h⟩
  · -- Yearly
    exact ⟨setYearPlus_lt t 1 le_rfl, fun h => nomatch h⟩
  · -- Custom
    obtain ⟨c, hcfg, hamt⟩ := hCustom rfl
    subst hcfg
    obtain ⟨a, u⟩ := c
    have ha : 1 ≤ a := hamt
    rcases u
    · refine ⟨?_, fun h => nomatch h⟩
      show t < setDatePlus t a
      rw [setDatePlus_eq]
      simp only [msPerDay]
      omega
    · refine ⟨?_, fun h => nomatch h⟩
      show t < setDatePlus t (a * 7)
      rw [setDatePlus_eq]
      simp only [msPerDay]
      omega
    · exact ⟨setMonthPlus_lt t a ha, fun h => nomatch h⟩
    · exact ⟨setYearPlus_lt t a ha, fun h => nomatch h⟩

/-- Witness for C2 at the concrete anchor 0 (1970-01-01, a Thursday) with the
Weekdays rule. -/
theorem next_due_strictly_after_witness :
    calculateNextDueDate (some 0) Recurrence.Weekdays none =
      some (nextOf 0 Recurrence.Weekdays none) ∧
    0 < nextOf 0 Recurrence.Weekdays none ∧
    (Recurrence.Weekdays = Recurrence.Weekdays →
      (1 ≤ getDay (nextOf 0 Recurrence.Weekdays none) ∧
        getDay (nextOf 0 Recurrence.Weekdays none) ≤ 5) ∧
      nextOf 0 Recurrence.Weekdays none ≤ 0 + 3 * msPerDay) :=
  next_due_strictly_after 0 Recurrence.Weekdays none (by decide) (fun h => nomatch h)

/-- C5, counterexample to the claim as stated: in the search view with an
empty query, the code leaves the collection unfiltered (the source comments
"Returning all for now"), so a one-task store yields that task, not an empty
display list. -/
theorem search_empty_query_counterexample :
    filteredTasks [baseTask] "search" "" [] 0 SortOption.smart = [baseTask] ∧
    filteredTasks [baseTask] "search" "" [] 0 SortOption.smart ≠ [] := by
  constructor
  · decide
  · decide

/-- C5 (amended): in the search view, when the free-text query is empty, the
derived display list is the entire task collection (merely reordered by the
sort stage): a permutation of it, for every task collection. -/
theorem search_empty_query_shows_all (tasks : List Task) (labels : List Label)
    (now : Int) (sortBy : SortOption) :
    (filteredTasks tasks "search" "" labels now sortBy).Perm tasks := by
  show (sortTasks sortBy tasks).Perm tasks
  exact stableSort_perm _ tasks

/-- C9: the id-keyed mutations ToggleComplete, UpdateTask and DeleteTask are
silent no-ops when the id is absent from the collection: no error, and the
collection is returned exactly unchanged. -/
theorem missing_id_noop (tasks : List Task) (tid : String) (u : Task)
    (logId newId newLogId : String) (now : Int) (labels : List Label)
    (lists : List TaskList) (idsf : Nat → String)
    (habsent : ∀ t ∈ tasks, ¬(t.id = tid)) (hu : u.id = tid) :
    handleToggleTask tid logId newId newLogId now tasks = tasks ∧
    handleUpdateTask u labels lists now idsf tasks = tasks ∧
    handleDeleteTask tid tasks = tasks := by
  refine ⟨?_, ?_, ?_⟩
  · have hnone : tasks.findIdx? (fun t => t.id = tid) = none := by
      rw [List.findIdx?_eq_none_iff]
      intro t ht
      simp [habsent t ht]
    unfold handleToggleTask
    rw [hnone]
  · unfold handleUpdateTask
    have hcongr : ∀ t ∈ tasks,
        (if t.id = u.id then applyUpdateTask t u labels lists now idsf else t) = t := by
      intro t ht
      rw [if_neg]
      rw [hu]
      exact habsent t ht
    rw [List.map_congr_left hcongr]
    simp
  · unfold handleDeleteTask
    rw [List.filter_eq_self.mpr]
    intro t ht
    simp [habsent t ht]

/-- C1: if ToggleComplete finds its task and the completed flag transitions
false→true with recurrence ≠ None, exactly one new task is inserted at the
front of the collection: a clone of the original with the fresh id, completed
false, due date equal to the Recurrence Calculator output anchored on the
original's due date (defaulting to now when absent), empty reminders, empty
attachments, a single-entry log list, and a fresh creation timestamp.  On a
true→false transition, or when recurrence is None, no task is spawned — the
collection only has the toggled task replaced in place.  For recurrence
Weekly anchored on 2024-01-01 the spawned due date is 2024-01-08. -/
theorem toggle_spawns_recurring (prev : List Task) (tid logId newId newLogId : String)
    (now : Int) (i : Nat) (task : Task)
    (hfind : prev.findIdx? (fun t => t.id = tid) = some i)
    (hget : prev[i]? = some task) :
    (task.completed = false → task.recurrence ≠ Recurrence.None →
      handleToggleTask tid logId newId newLogId now prev =
        { task with
          id := newId,
          completed := false,
          dueDate := some (nextOf (task.dueDate.getD now) task.recurrence
            task.recurrenceCustom),
          reminders := [],
          attachments := [],
          logs := [{ id := newLogId, timestamp := now,
                     message := "Recurring task created from " ++ apos ++ task.title
                       ++ apos }],
          createdAt := now } ::
        prev.set i
          { task with
            completed := true,
            logs := task.logs ++
              [{ id := logId, timestamp := now, message := "Completed task" }] }) ∧
    (task.completed = true →
      handleToggleTask tid logId newId newLogId now prev =
        prev.set i
          { task with
            completed := false,
            logs := task.logs ++
              [{ id := logId, timestamp := now, message := "Uncompleted task" }] }) ∧
    (task.recurrence = Recurrence.None →
      handleToggleTask tid logId newId newLogId now prev =
        prev.set i
          { task with
            completed := !task.completed,
            logs := task.logs ++
              [{ id := logId, timestamp := now,
                 message := if !task.completed then "Completed task"
                            else "Uncompleted task" }] }) ∧
    nextOf (isoDate 2024 1 1) Recurrence.Weekly task.recurrenceCustom =
      isoDate 2024 1 8 := by
  refine ⟨fun hc hr =>
    handleToggleTask_spawn prev tid logId newId newLogId now i task hfind hget hc hr,
    fun hc => ?_, fun hr => ?_, ?_⟩
  · rw [handleToggleTask_noSpawn prev tid logId newId newLogId now i task hfind hget
      (by simp [hc])]
    simp [hc]
  · rw [handleToggleTask_noSpawn prev tid logId newId newLogId now i task hfind hget
      (by simp [hr])]
  · have hv : nextOf (isoDate 2024 1 1) Recurrence.Weekly task.recurrenceCustom
        = setDatePlus (isoDate 2024 1 1) 7 := rfl
    rw [hv, setDatePlus_eq]
    decide

/-- Witness for C1 on a one-task store holding `weeklyTask` (recurrence
Weekly, due 2024-01-01, incomplete). -/
theorem toggle_spawns_recurring_witness :
    (weeklyTask.completed = false → weeklyTask.recurrence ≠ Recurrence.None →
      handleToggleTask "t1" "L1" "N1" "NL1" 0 [weeklyTask] =
        { weeklyTask with
          id := "N1",
          completed := false,
          dueDate := some (nextOf (weeklyTask.dueDate.getD 0) weeklyTask.recurrence
            weeklyTask.recurrenceCustom),
          reminders := [],
          attachments := [],
          logs := [{ id := "NL1", timestamp := 0,
                     message := "Recurring task created from " ++ apos
                       ++ weeklyTask.title ++ apos }],
          createdAt := 0 } ::
        [weeklyTask].set 0
          { weeklyTask with
            completed := true,
            logs := weeklyTask.logs ++
              [{ id := "L1", timestamp := 0, message := "Completed task" }] }) ∧
    (weeklyTask.completed = true →
      handleToggleTask "t1" "L1" "N1" "NL1" 0 [weeklyTask] =
        [weeklyTask].set 0
          { weeklyTask with
            completed := false,
            logs := weeklyTask.logs ++
              [{ id := "L1", timestamp := 0, message := "Uncompleted task" }] }) ∧
    (weeklyTask.recurrence = Recurrence.None →
      handleToggleTask "t1" "L1" "N1" "NL1" 0 [weeklyTask] =
        [weeklyTask].set 0
          { weeklyTask with
            completed := !weeklyTask.completed,
            logs := weeklyTask.logs ++
              [{ id := "L1", timestamp := 0,
                 message := if !weeklyTask.completed then "Completed task"
                            else "Uncompleted task" }] }) ∧
    nextOf (isoDate 2024 1 1) Recurrence.Weekly weeklyTask.recurrenceCustom =
      isoDate 2024 1 8 :=
  toggle_spawns_recurring [weeklyTask] "t1" "L1" "N1" "NL1" 0 0 weeklyTask
    (by decide) (by decide)

/-- C8: with recurrence None, applying ToggleComplete twice to a found task
yields the collection with that task's completed flag restored and exactly
two log entries appended, and with no additional tasks. -/
theorem toggle_twice_roundtrip (prev : List Task) (tid : String)
    (l1 n1 m1 l2 n2 m2 : String) (t1 t2 : Int) (i : Nat) (task : Task)
    (hfind : prev.findIdx? (fun t => t.id = tid) = some i)
    (hget : prev[i]? = some task)
    (hrec : task.recurrence = Recurrence.None) :
    handleToggleTask tid l2 n2 m2 t2 (handleToggleTask tid l1 n1 m1 t1 prev) =
      prev.set i
        { task with
          logs := task.logs ++
            [{ id := l1, timestamp := t1,
               message := if !task.completed then "Completed task"
                          else "Uncompleted task" },
             { id := l2, timestamp := t2,
               message := if task.completed then "Completed task"
                          else "Uncompleted task" }] } ∧
    (handleToggleTask tid l2 n2 m2 t2 (handleToggleTask tid l1 n1 m1 t1 prev)).length
      = prev.length ∧
    ({ task with
       logs := task.logs ++
         [{ id := l1, timestamp := t1,
            message := if !task.completed then "Completed task"
                       else "Uncompleted task" },
          { id := l2, timestamp := t2,
            message := if task.completed then "Completed task"
                       else "Uncompleted task" }] } : Task).completed = task.completed ∧
    ({ task with
       logs := task.logs ++
         [{ id := l1, timestamp := t1,
            message := if !task.completed then "Completed task"
                       else "Uncompleted task" },
          { id := l2, timestamp := t2,
            message := if task.completed then "Completed task"
                       else "Uncompleted task" }] } : Task).logs.length
      = task.logs.length + 2 := by
  have hp : (fun t => decide (t.id = tid)) task = true :=
    findIdx?_some_prop _ prev i task hfind hget
  have hlt : i < prev.length := findIdx?_some_lt _ prev i hfind
  have h1 := handleToggleTask_noSpawn prev tid l1 n1 m1 t1 i task hfind hget
    (by simp [hrec])
  rw [h1]
  have hfind2 := findIdx?_set (fun t => decide (t.id = tid)) prev i
    { task with
      completed := !task.completed,
      logs := task.logs ++
        [{ id := l1, timestamp := t1,
           message := if !task.completed then "Completed task"
                      else "Uncompleted task" }] } hfind hp
  have hget2 := List.getElem?_set_self (l := prev) (i := i)
    (a := { task with
      completed := !task.completed,
      logs := task.logs ++
        [{ id := l1, timestamp := t1,
           message := if !task.completed then "Completed task"
                      else "Uncompleted task" }] }) hlt
  have h2 := handleToggleTask_noSpawn _ tid l2 n2 m2 t2 i _ hfind2 hget2
    (by simp [hrec])
  rw [h2, List.set_set]
  refine ⟨?_, ?_, rfl, by simp⟩
  · congr 1
    simp [Bool.not_not]
  · simp

/-- Witness for C8 on a one-task store holding `baseTask` (recurrence
None). -/
theorem toggle_twice_roundtrip_witness :
    handleToggleTask "t1" "L2" "N2" "M2" 5 (handleToggleTask "t1" "L1" "N1" "M1" 3
      [baseTask]) =
      [baseTask].set 0
        { baseTask with
          logs := baseTask.logs ++
            [{ id := "L1", timestamp := 3,
               message := if !baseTask.completed then "Completed task"
                          else "Uncompleted task" },
             { id := "L2", timestamp := 5,
               message := if baseTask.completed then "Completed task"
                          else "Uncompleted task" }] } ∧
    (handleToggleTask "t1" "L2" "N2" "M2" 5 (handleToggleTask "t1" "L1" "N1" "M1" 3
      [baseTask])).length = [baseTask].length ∧
    ({ baseTask with
       logs := baseTask.logs ++
         [{ id := "L1", timestamp := 3,
            message := if !baseTask.completed then "Completed task"
                       else "Uncompleted task" },
          { id := "L2", timestamp := 5,
            message := if baseTask.completed then "Completed task"
                       else "Uncompleted task" }] } : Task).completed
      = baseTask.completed ∧
    ({ baseTask with
       logs := baseTask.logs ++
         [{ id := "L1", timestamp := 3,
            message := if !baseTask.completed then "Completed task"
                       else "Uncompleted task" },
          { id := "L2", timestamp := 5,
            message := if baseTask.completed then "Completed task"
                       else "Uncompleted task" }] } : Task).logs.length
      = baseTask.logs.length + 2 :=
  toggle_twice_roundtrip [baseTask] "t1" "L1" "N1" "M1" "L2" "N2" "M2" 3 5 0 baseTask
    (by decide) (by decide) rfl

/-- C10: UpdateTask replaces the stored task with the incoming snapshot on
every field other than `logs` — in particular `completed`, `recurrence` and
`reminders` come verbatim from the snapshot, and no task is spawned even when
the snapshot flips `completed` to true (the collection keeps its length) —
except that the label-id list is reordered in place by the diff's sort (it
remains a permutation of the snapshot's).  Every other task is unchanged. -/
theorem update_replaces_fields (prev : List Task) (u : Task) (labels : List Label)
    (lists : List TaskList) (now : Int) (idsf : Nat → String) (j : Nat) (tj : Task)
    (hget : prev[j]? = some tj) :
    (handleUpdateTask u labels lists now idsf prev).length = prev.length ∧
    (¬(tj.id = u.id) →
      (handleUpdateTask u labels lists now idsf prev)[j]? = some tj) ∧
    (tj.id = u.id →
      (handleUpdateTask u labels lists now idsf prev)[j]? =
        some (applyUpdateTask tj u labels lists now idsf) ∧
      (applyUpdateTask tj u labels lists now idsf).id = u.id ∧
      (applyUpdateTask tj u labels lists now idsf).listId = u.listId ∧
      (applyUpdateTask tj u labels lists now idsf).title = u.title ∧
      (applyUpdateTask tj u labels lists now idsf).description = u.description ∧
      (applyUpdateTask tj u labels lists now idsf).completed = u.completed ∧
      (applyUpdateTask tj u labels lists now idsf).dueDate = u.dueDate ∧
      (applyUpdateTask tj u labels lists now idsf).deadline = u.deadline ∧
      (applyUpdateTask tj u labels lists now idsf).reminders = u.reminders ∧
      (applyUpdateTask tj u labels lists now idsf).estimate = u.estimate ∧
      (applyUpdateTask tj u labels lists now idsf).actualTime = u.actualTime ∧
      (applyUpdateTask tj u labels lists now idsf).priority = u.priority ∧
      (applyUpdateTask tj u labels lists now idsf).subtasks = u.subtasks ∧
      (applyUpdateTask tj u labels lists now idsf).recurrence = u.recurrence ∧
      (applyUpdateTask tj u labels lists now idsf).recurrenceCustom
        = u.recurrenceCustom ∧
      (applyUpdateTask tj u labels lists now idsf).attachments = u.attachments ∧
      (applyUpdateTask tj u labels lists now idsf).color = u.color ∧
      (applyUpdateTask tj u labels lists now idsf).createdAt = u.createdAt ∧
      (applyUpdateTask tj u labels lists now idsf).labelIds.Perm u.labelIds) := by
  refine ⟨by simp [handleUpdateTask], fun hne => ?_, fun heq => ?_⟩
  · unfold handleUpdateTask
    rw [List.getElem?_map, hget]
    simp [hne]
  · refine ⟨?_, rfl, rfl, rfl, rfl, rfl, rfl, rfl, rfl, rfl, rfl, rfl, rfl, rfl,
      rfl, rfl, rfl, rfl, ?_⟩
    · unfold handleUpdateTask
      rw [List.getElem?_map, hget]
      simp [heq]
    · show (sortStrings u.labelIds).Perm u.labelIds
      exact stableSort_perm _ u.labelIds

/-- Witness for C10: updating a one-task store with the snapshot `snapB`,
which renames the task, flips `completed` and reorders the labels. -/
theorem update_replaces_fields_witness :
    (handleUpdateTask snapB [] [] 0 (fun _ => "g") [baseTask]).length
      = [baseTask].length ∧
    (¬(baseTask.id = snapB.id) →
      (handleUpdateTask snapB [] [] 0 (fun _ => "g") [baseTask])[0]? = some baseTask) ∧
    (baseTask.id = snapB.id →
      (handleUpdateTask snapB [] [] 0 (fun _ => "g") [baseTask])[0]? =
        some (applyUpdateTask baseTask snapB [] [] 0 (fun _ => "g")) ∧
      (applyUpdateTask baseTask snapB [] [] 0 (fun _ => "g")).id = snapB.id ∧
      (applyUpdateTask baseTask snapB [] [] 0 (fun _ => "g")).listId = snapB.listId ∧
      (applyUpdateTask baseTask snapB [] [] 0 (fun _ => "g")).title = snapB.title ∧
      (applyUpdateTask baseTask snapB [] [] 0 (fun _ => "g")).description
        = snapB.description ∧
      (applyUpdateTask baseTask snapB [] [] 0 (fun _ => "g")).completed
        = snapB.completed ∧
      (applyUpdateTask baseTask snapB [] [] 0 (fun _ => "g")).dueDate = snapB.dueDate ∧
      (applyUpdateTask baseTask snapB [] [] 0 (fun _ => "g")).deadline
        = snapB.deadline ∧
      (applyUpdateTask baseTask snapB [] [] 0 (fun _ => "g")).reminders
        = snapB.reminders ∧
      (applyUpdateTask baseTask snapB [] [] 0 (fun _ => "g")).estimate
        = snapB.estimate ∧
      (applyUpdateTask baseTask snapB [] [] 0 (fun _ => "g")).actualTime
        = snapB.actualTime ∧
      (applyUpdateTask baseTask snapB [] [] 0 (fun _ => "g")).priority
        = snapB.priority ∧
      (applyUpdateTask baseTask snapB [] [] 0 (fun _ => "g")).subtasks
        = snapB.subtasks ∧
      (applyUpdateTask baseTask snapB [] [] 0 (fun _ => "g")).recurrence
        = snapB.recurrence ∧
      (applyUpdateTask baseTask snapB [] [] 0 (fun _ => "g")).recurrenceCustom
        = snapB.recurrenceCustom ∧
      (applyUpdateTask baseTask snapB [] [] 0 (fun _ => "g")).attachments
        = snapB.attachments ∧
      (applyUpdateTask baseTask snapB [] [] 0 (fun _ => "g")).color = snapB.color ∧
      (applyUpdateTask baseTask snapB [] [] 0 (fun _ => "g")).createdAt
        = snapB.createdAt ∧
      (applyUpdateTask baseTask snapB [] [] 0 (fun _ => "g")).labelIds.Perm
        snapB.labelIds) :=
  update_replaces_fields [baseTask] snapB [] [] 0 (fun _ => "g") 0 baseTask (by decide)

/-- C3: on an UpdateTask hit, the stored task's resulting log list is exactly
the stored logs, then the incoming snapshot's logs whose ids are new to the
stored version and whose message is not the placeholder "Updated task
details", then the synthesized diff logs, in that order. -/
theorem update_log_merge (prev : List Task) (u : Task) (labels : List Label)
    (lists : List TaskList) (now : Int) (idsf : Nat → String) (i : Nat) (task : Task)
    (hget : prev[i]? = some task) (hid : task.id = u.id) :
    ((handleUpdateTask u labels lists now idsf prev)[i]?).map Task.logs =
      some (task.logs ++
        u.logs.filter (fun l =>
          !(task.logs.any (fun x => x.id = l.id)) &&
          !(l.message = "Updated task details")) ++
        synthLogs task u labels lists now idsf) := by
  unfold handleUpdateTask
  rw [List.getElem?_map, hget]
  simp only [Option.map_some']
  rw [if_pos hid]
  have hm : (u.logs.filter
        (fun l => !(task.logs.any (fun x => x.id = l.id)))).filter
        (fun l => !(l.message = "Updated task details")) =
      u.logs.filter (fun l =>
        !(task.logs.any (fun x => x.id = l.id)) &&
        !(l.message = "Updated task details")) := by
    rw [List.filter_filter]
    exact List.filter_congr (fun a _ => Bool.and_comm _ _)
  show some (task.logs ++
      (u.logs.filter (fun l => !(task.logs.any (fun x => x.id = l.id)))).filter
        (fun l => !(l.message = "Updated task details")) ++
      synthLogs task u labels lists now idsf) = _
  rw [hm]

/-- Witness for C3: updating a one-task store with the snapshot `snapModal`,
which renames the task and carries one placeholder modal log. -/
theorem update_log_merge_witness :
    ((handleUpdateTask snapModal [] [] 2 (fun _ => "g") [baseTask])[0]?).map
      Task.logs =
      some (baseTask.logs ++
        snapModal.logs.filter (fun l =>
          !(baseTask.logs.any (fun x => x.id = l.id)) &&
          !(l.message = "Updated task details")) ++
        synthLogs baseTask snapModal [] [] 2 (fun _ => "g")) :=
  update_log_merge [baseTask] snapModal [] [] 2 (fun _ => "g") 0 baseTask
    (by decide) rfl

/-- An unfired reminder that is due at time 0. -/
def remDue : Reminder := { id := "r", time := 0, fired := false }

/-- An unfired future reminder sharing `remDue`'s id. -/
def remFuture : Reminder := { id := "r", time := 100, fired := false }

/-- A task carrying two reminders with the same id, one due and one not. -/
def dupTask : Task := { baseTask with reminders := [remDue, remFuture] }

/-- A task carrying a due and a future reminder with distinct ids. -/
def dueTask : Task :=
  { baseTask with
    reminders := [{ id := "ra", time := 0, fired := false },
                  { id := "rb", time := 100, fired := false }] }

/-- C7, counterexample to the claim as stated: firing matches reminders by
id, so when two reminders share an id and one is due, the other — although
its fire time lies after now and it was unfired — is marked fired as well,
so not every reminder with a future fire time is left unchanged. -/
theorem reminder_tick_counterexample :
    reminderTick 0 [dupTask] =
      [{ dupTask with
         reminders := [{ remDue with fired := true },
                       { remFuture with fired := true }] }] ∧
    remFuture.time > 0 ∧ remFuture.fired = false := by
  refine ⟨by decide, by decide, by decide⟩

/-- C7 (amended): on a tick at time `now`, provided a task's reminder ids are
distinct (they are freshly generated UUIDs in the source), exactly its
unfired reminders with fire time ≤ now become fired; already-fired and
future reminders are unchanged, completed tasks are untouched, and no
reminder moves from fired back to unfired.  Without the distinctness
assumption the claim fails (see the counterexample). -/
theorem reminder_tick_marks_due (now : Int) (tasks : List Task) (i : Nat)
    (task : Task) (hget : tasks[i]? = some task)
    (hnodup : (task.reminders.map (fun r => r.id)).Nodup) :
    (reminderTick now tasks)[i]? =
      some (if task.completed = true then task
        else { task with reminders := task.reminders.map (fun r =>
          if r.fired = false ∧ r.time ≤ now then { r with fired := true } else r) }) ∧
    (reminderTick now tasks).length = tasks.length := by
  refine ⟨?_, by simp [reminderTick]⟩
  unfold reminderTick
  rw [List.getElem?_map, hget]
  simp only [Option.map_some']
  congr 1
  by_cases hc : task.completed
  · simp [hc]
  · rw [if_neg (by simp [hc] : ¬task.completed = true)]
    by_cases hemp : task.reminders.length = 0
    · rw [if_pos (by simp [hc, hemp])]
      have hnil : task.reminders = [] := List.length_eq_zero.mp hemp
      simp only [hnil, List.map_nil]
      conv_rhs => rw [← hnil]
    · rw [if_neg (by simp [hc, hemp])]
      by_cases hfire :
          (task.reminders.filter (fun r => !r.fired && r.time ≤ now)).length > 0
      · rw [if_pos hfire]
        congr 1
        apply List.map_congr_left
        intro r hr
        by_cases hdue : r.fired = false ∧ r.time ≤ now
        · rw [if_pos ?_, if_pos hdue]
          rw [List.any_eq_true]
          refine ⟨r, List.mem_filter.mpr ⟨hr, by simp [hdue.1, hdue.2]⟩, by simp⟩
        · rw [if_neg ?_, if_neg hdue]
          intro hany
          obtain ⟨rt, hrtmem, hrtid⟩ := List.any_eq_true.mp hany
          obtain ⟨hrtin, hrtpred⟩ := List.mem_filter.mp hrtmem
          have hideq : rt.id = r.id := by simpa using hrtid
          have : rt = r :=
            List.inj_on_of_nodup_map hnodup hrtin hr hideq
          subst this
          simp at hrtpred
          exact hdue ⟨by simp [hrtpred.1], hrtpred.2⟩
      · rw [if_neg hfire]
        have hnil : task.reminders.filter (fun r => !r.fired && r.time ≤ now) = [] :=
          List.length_eq_zero.mp (by omega)
        have hall := List.filter_eq_nil_iff.mp hnil
        have hmapid : task.reminders.map (fun r =>
            if r.fired = false ∧ r.time ≤ now then { r with fired := true } else r)
            = task.reminders := by
          rw [List.map_congr_left (g := fun r => r) ?_]
          · simp
          · intro r hr
            rw [if_neg]
            intro hdue
            exact hall r hr (by simp [hdue.1, hdue.2])
        rw [hmapid]

/-- Witness for C7 on a task with a due and a future reminder under distinct
ids. -/
theorem reminder_tick_marks_due_witness :
    (reminderTick 0 [dueTask])[0]? =
      some (if dueTask.completed = true then dueTask
        else { dueTask with reminders := dueTask.reminders.map (fun r =>
          if r.fired = false ∧ r.time ≤ 0 then { r with fired := true } else r) }) ∧
    (reminderTick 0 [dueTask]).length = [dueTask].length :=
  reminder_tick_marks_due 0 [dueTask] 0 dueTask (by decide) (by decide)

/-! ## Smart-sort comparator lemmas -/

/-- The `smart` comparator, characterised as a lexicographic comparison of
integer keys: completion flag, then descending priority, then
dated-before-undated, then ascending due date. -/
theorem cmp_smart_le_iff (u v : Task) :
    cmpTasks SortOption.smart u v ≤ 0 ↔
      ((if u.completed then (1 : Int) else 0) < (if v.completed then 1 else 0) ∨
        ((if u.completed then (1 : Int) else 0) = (if v.completed then 1 else 0) ∧
          (prioOrder v.priority < prioOrder u.priority ∨
            (prioOrder u.priority = prioOrder v.priority ∧
              ((if u.dueDate.isSome then (0 : Int) else 1) <
                  (if v.dueDate.isSome then 0 else 1) ∨
                ((if u.dueDate.isSome then (0 : Int) else 1) =
                    (if v.dueDate.isSome then 0 else 1) ∧
                  u.dueDate.getD 0 ≤ v.dueDate.getD 0)))))) := by
  unfold cmpTasks
  cases hu : u.completed <;> cases hv : v.completed <;>
    cases hud : u.dueDate <;> cases hvd : v.dueDate <;>
    by_cases hp : prioOrder v.priority = prioOrder u.priority <;>
    simp [hu, hv, hud, hvd, hp] <;> omega

theorem cmp_smart_trans (a b c : Task) (h1 : cmpTasks SortOption.smart a b ≤ 0)
    (h2 : cmpTasks SortOption.smart b c ≤ 0) :
    cmpTasks SortOption.smart a c ≤ 0 := by
  rw [cmp_smart_le_iff] at h1 h2 ⊢
  omega

theorem cmp_smart_total (a b : Task) :
    cmpTasks SortOption.smart a b ≤ 0 ∨ cmpTasks SortOption.smart b a ≤ 0 := by
  rw [cmp_smart_le_iff, cmp_smart_le_iff]
  omega

/-- What one comparator step guarantees about a pair, in the claim's terms. -/
theorem cmp_smart_imp (a b : Task) (h : cmpTasks SortOption.smart a b ≤ 0) :
    (a.completed = true → b.completed = true) ∧
    (a.completed = b.completed → prioOrder b.priority ≤ prioOrder a.priority) ∧
    (a.completed = b.completed → prioOrder a.priority = prioOrder b.priority →
      (a.dueDate = none → b.dueDate = none) ∧
      (∀ x y, a.dueDate = some x → b.dueDate = some y → x ≤ y)) := by
  rw [cmp_smart_le_iff] at h
  refine ⟨?_, ?_, ?_⟩
  · intro hac
    cases hbc : b.completed
    · rw [hac, hbc] at h
      simp at h
    · rfl
  · intro hcc
    rw [hcc] at h
    omega
  · intro hcc hpp
    rw [hcc] at h
    constructor
    · intro had
      cases hbd : b.dueDate
      · rfl
      · rw [had, hbd] at h
        simp at h
        omega
    · intro x y hx hy
      rw [hx, hy] at h
      simp at h
      omega

/-- C6: in every display list produced with the default `smart` sort, for
every pair in list order: a completed task never precedes an incomplete one;
among equal completion status, strictly higher priority comes first
regardless of due dates; and among equal completion and priority, dated
tasks precede undated ones and dated pairs are ascending by due date. -/
theorem smart_sort_pairwise (tasks : List Task) (activeView searchQuery : String)
    (labels : List Label) (now : Int) :
    (filteredTasks tasks activeView searchQuery labels now SortOption.smart).Pairwise
      (fun a b =>
        (a.completed = true → b.completed = true) ∧
        (a.completed = b.completed → prioOrder b.priority ≤ prioOrder a.priority) ∧
        (a.completed = b.completed → prioOrder a.priority = prioOrder b.priority →
          (a.dueDate = none → b.dueDate = none) ∧
          (∀ x y, a.dueDate = some x → b.dueDate = some y → x ≤ y))) := by
  have hsort : ∀ l : List Task,
      (sortTasks SortOption.smart l).Pairwise
        (fun a b =>
          (a.completed = true → b.completed = true) ∧
          (a.completed = b.completed → prioOrder b.priority ≤ prioOrder a.priority) ∧
          (a.completed = b.completed → prioOrder a.priority = prioOrder b.priority →
            (a.dueDate = none → b.dueDate = none) ∧
            (∀ x y, a.dueDate = some x → b.dueDate = some y → x ≤ y))) := by
    intro l
    have hp := stableSort_pairwise
      (fun a b => decide (cmpTasks SortOption.smart a b ≤ 0))
      (fun x y z hxy hyz => by
        simp only [decide_eq_true_eq] at hxy hyz ⊢
        exact cmp_smart_trans x y z hxy hyz)
      (fun x y => by
        simp only [decide_eq_true_eq]
        exact cmp_smart_total x y) l
    exact hp.imp (fun hle => cmp_smart_imp _ _ (by simpa using hle))
  unfold filteredTasks
  by_cases hav : activeView = "activity"
  · simp [hav]
  · rw [if_neg hav]
    exact hsort _

/-- C4, counterexample to the claim as stated: swapping attachment A for B
keeps the attachment count equal, so the diff block is skipped entirely —
the update produces zero log entries although one attachment was added and
one removed (by id). -/
theorem update_attachment_logs_counterexample :
    snapAttB.attachments.filter
      (fun a => !(taskAttA.attachments.any (fun oa => oa.id = a.id))) = [attB] ∧
    taskAttA.attachments.filter
      (fun a => !(snapAttB.attachments.any (fun na => na.id = a.id))) = [attA] ∧
    (applyUpdateTask taskAttA snapAttB [] [] 0 (fun _ => "g")).logs = [] := by
  refine ⟨by decide, by decide, by decide⟩

/-- C4 (amended): when the stored and incoming attachment lists have
different lengths, the updated task's logs contain one "Added attachment"
entry per attachment new by id and one "Removed attachment" entry per
attachment dropped by id, as a contiguous block.  When the counts are equal
— even with an equal number of additions and removals — the code skips the
diff and emits no attachment logs (see the counterexample). -/
theorem update_attachment_logs (prev : List Task) (u : Task) (labels : List Label)
    (lists : List TaskList) (now : Int) (idsf : Nat → String) (i : Nat) (task : Task)
    (hget : prev[i]? = some task) (hid : task.id = u.id)
    (hlen : task.attachments.length ≠ u.attachments.length) :
    ∃ pre post,
      ((handleUpdateTask u labels lists now idsf prev)[i]?).map
        (fun r => r.logs.map (fun l => l.message)) =
      some (pre ++ ((u.attachments.filter
          (fun a => !(task.attachments.any (fun oa => oa.id = a.id)))).map
          (fun a => "Added attachment " ++ dq ++ a.name ++ dq) ++
        (((task.attachments.filter
          (fun a => !(u.attachments.any (fun na => na.id = a.id)))).map
          (fun a => "Removed attachment " ++ dq ++ a.name ++ dq)) ++ post))) := by
  obtain ⟨p0, q0, hp0⟩ := synthMessages_attach_split task u labels lists hlen
  refine ⟨task.logs.map (fun l => l.message) ++
    ((u.logs.filter (fun l => !(task.logs.any (fun x => x.id = l.id)))).filter
      (fun l => !(l.message = "Updated task details"))).map (fun l => l.message) ++
    p0, q0, ?_⟩
  unfold handleUpdateTask
  rw [List.getElem?_map, hget]
  simp only [Option.map_some']
  rw [if_pos hid]
  show some ((task.logs ++
      (u.logs.filter (fun l => !(task.logs.any (fun x => x.id = l.id)))).filter
        (fun l => !(l.message = "Updated task details")) ++
      synthLogs task u labels lists now idsf).map (fun l => l.message)) = _
  rw [List.map_append, List.map_append, synthLogs_messages, hp0]
  simp [List.append_assoc]

/-- Witness for C4 on a one-task store: the snapshot replaces attachment A
with B and C, so the counts differ and the block appears. -/
theorem update_attachment_logs_witness :
    ∃ pre post,
      ((handleUpdateTask snapAttBC [] [] 0 (fun _ => "g") [taskAttA])[0]?).map
        (fun r => r.logs.map (fun l => l.message)) =
      some (pre ++ ((snapAttBC.attachments.filter
          (fun a => !(taskAttA.attachments.any (fun oa => oa.id = a.id)))).map
          (fun a => "Added attachment " ++ dq ++ a.name ++ dq) ++
        (((taskAttA.attachments.filter
          (fun a => !(snapAttBC.attachments.any (fun na => na.id = a.id)))).map
          (fun a => "Removed attachment " ++ dq ++ a.name ++ dq)) ++ post))) :=
  update_attachment_logs [taskAttA] snapAttBC [] [] 0 (fun _ => "g") 0 taskAttA
    (by decide) rfl (by decide)

/-- Witness for C9 on a concrete one-task store and the absent id "zzz". -/
theorem missing_id_noop_witness :
    handleToggleTask "zzz" "a" "b" "c" 0 [baseTask] = [baseTask] ∧
    handleUpdateTask { baseTask with id := "zzz" } [] [] 0 (fun _ => "x")
      [baseTask] = [baseTask] ∧
    handleDeleteTask "zzz" [baseTask] = [baseTask] :=
  missing_id_noop [baseTask] "zzz" { baseTask with id := "zzz" } "a" "b" "c" 0
    [] [] (fun _ => "x") (by decide) rfl

end Zentask
